import Mathlib

/-!
# Verification of the Ising-lattice simulation core (`src/lattice.rs`)

Shallow embedding of the 2D Ising Metropolis simulator: the spin and
interaction data model, toroidal indexing, the per-site Hamiltonian, the
Metropolis `step`, derived observables, and the raw image export.

Numeric values (`f32`/`f64` in the source) are modelled as exact rationals;
the Boltzmann factor `exp(-E/T)` is modelled over the reals with `Real.exp`.
Randomness (an ambient thread-local generator in the source) is modelled by
passing the drawn values explicitly: boolean streams for construction draws,
the chosen site and the uniform acceptance draw for `step`.
Rust panics (out-of-probability `gen_bool`) are modelled with `Option`.
-/

namespace IsingModel

/-- Modelled from the spec: the `Spin` type lives in `src/spin.rs`, which is
declared (`mod spin;`) but absent from the sources. Per the spec, a spin is a
two-valued quantity `{Up, Down}` mapping to the integers `{+1, -1}`;
multiplying two spins yields `+1` when aligned and `-1` when anti-aligned,
and negation flips the spin. -/
inductive Spin where
  | Up : Spin
  | Down : Spin
  deriving DecidableEq, Repr

/-- Modelled from the spec: `Spin` maps to integer `{+1, -1}` (`Into<i32>`). -/
def Spin.toInt : Spin → ℤ
  | .Up => 1
  | .Down => -1

/-- Modelled from the spec: negating a spin flips it (`impl Neg for Spin`). -/
def Spin.negate : Spin → Spin
  | .Up => .Down
  | .Down => .Up

/-- Modelled from the spec: multiplying two spins yields `+1` (aligned) or
`-1` (anti-aligned) (`impl Mul for Spin`). -/
def Spin.mul (a b : Spin) : ℤ := a.toInt * b.toInt

/-- `boltzman` (src/lattice.rs:6-8): `f32::exp(-energy / temperature)`. -/
noncomputable def boltzman (energy temperature : ℝ) : ℝ :=
  Real.exp (-energy / temperature)

/-- `InterationsStorage` (src/lattice.rs:11-17): per-site stored couplings to
the `up` and `left` neighbours; down/right couplings are stored in the
up/left slots of the neighbouring sites. -/
structure InterationsStorage where
  up : ℚ
  left : ℚ
  deriving DecidableEq, Repr

/-- `InterationsStorage::FERROMAGNETIC` (src/lattice.rs:20-23). -/
def InterationsStorage.FERROMAGNETIC : InterationsStorage :=
  { up := 1, left := 1 }

/-- `InterationsStorage::ANTIFERROMAGNETIC` (src/lattice.rs:25-28). -/
def InterationsStorage.ANTIFERROMAGNETIC : InterationsStorage :=
  { up := -1, left := -1 }

instance : Inhabited InterationsStorage := ⟨InterationsStorage.FERROMAGNETIC⟩

/-- `Rng::gen_bool(p)` from the `rand` crate: returns a Bernoulli draw
(modelled by the explicitly passed `draw`), but panics (`none`) when the
probability argument lies outside `[0, 1]`. -/
def genBool (p : ℚ) (draw : Bool) : Option Bool :=
  if 0 ≤ p ∧ p ≤ 1 then some draw else none

/-- `InterationsStorage::spin_glass` (src/lattice.rs:30-35): each of `up` and
`left` is `gen_bool(1 - p_antiferro) as i32 * 2 - 1`, i.e. `+1` on a `true`
draw and `-1` on a `false` draw; `gen_bool` panics when `1 - p ∉ [0, 1]`. -/
def InterationsStorage.spin_glass (antiferromagnetic_probability : ℚ)
    (d1 d2 : Bool) : Option InterationsStorage := do
  let bu ← genBool (1 - antiferromagnetic_probability) d1
  let bl ← genBool (1 - antiferromagnetic_probability) d2
  some { up := ((bu.toNat : ℤ) * 2 - 1 : ℤ), left := ((bl.toNat : ℤ) * 2 - 1 : ℤ) }

/-- `LatticeInitialState` (src/lattice.rs:38-43). -/
inductive LatticeInitialState where
  | Random : LatticeInitialState
  | AllUp : LatticeInitialState
  | AllDown : LatticeInitialState
  deriving DecidableEq, Repr

/-- `Interactions` (src/lattice.rs:45-51): the effective per-site coupling
set assembled on demand by `get_interactions`. -/
structure Interactions where
  up : ℚ
  left : ℚ
  down : ℚ
  right : ℚ
  deriving DecidableEq, Repr

/-- `LatticeType` (src/lattice.rs:53-58). -/
inductive LatticeType where
  | Ferromagnetic : LatticeType
  | Antiferromagnetic : LatticeType
  | SpinGlass : (p_antiferro : ℚ) → LatticeType
  deriving DecidableEq, Repr

/-- `Lattice` (src/lattice.rs:60-68). -/
structure Lattice where
  state : List Spin
  interations : List InterationsStorage
  size : ℕ
  temperature : ℚ
  magnetic_field : ℚ
  deriving DecidableEq, Repr

/-- The spin-glass generation loop (src/lattice.rs:89-93): push `n`
independently drawn `spin_glass` storages (draw stream `bondRng`, two draws
per site), propagating the `gen_bool` panic. -/
def buildSpinGlass (p : ℚ) (bondRng : ℕ → Bool) : ℕ → Option (List InterationsStorage)
  | 0 => some []
  | n + 1 => do
    let init ← buildSpinGlass p bondRng n
    let s ← InterationsStorage.spin_glass p (bondRng (2 * n)) (bondRng (2 * n + 1))
    some (init ++ [s])

/-- The interaction-grid generation shared by both constructors
(src/lattice.rs:85-95 and 114-124): ferromagnetic and antiferromagnetic
types fill the grid with a constant pair; spin glass runs the
`spin_glass` push loop. -/
def buildInterations (lattice_type : LatticeType) (n : ℕ) (bondRng : ℕ → Bool) :
    Option (List InterationsStorage) :=
  match lattice_type with
  | .Ferromagnetic => some (List.replicate n InterationsStorage.FERROMAGNETIC)
  | .Antiferromagnetic => some (List.replicate n InterationsStorage.ANTIFERROMAGNETIC)
  | .SpinGlass p => buildSpinGlass p bondRng n

/-- `Lattice::new_random` (src/lattice.rs:72-104): `size²` fair-coin spins
(draw stream `spinRng`), then the interaction grid per `lattice_type`.
The source returns `Lattice` unconditionally; `none` models the `gen_bool`
panic reachable through spin-glass generation. -/
def Lattice.new_random (size : ℕ) (temperature magnetic_field : ℚ)
    (lattice_type : LatticeType) (spinRng : ℕ → Bool) (bondRng : ℕ → Bool) :
    Option Lattice := do
  let spins := (List.range (size * size)).map fun i =>
    if spinRng i then Spin.Up else Spin.Down
  let interations ← buildInterations lattice_type (size * size) bondRng
  some { state := spins, interations := interations, size := size,
         temperature := temperature, magnetic_field := magnetic_field }

/-- `Lattice::new_uniform` (src/lattice.rs:107-133): `size²` copies of the
given spin, then the interaction grid per `lattice_type`. -/
def Lattice.new_uniform (size : ℕ) (temperature magnetic_field : ℚ)
    (spin : Spin) (lattice_type : LatticeType) (bondRng : ℕ → Bool) :
    Option Lattice := do
  let spins := List.replicate (size * size) spin
  let interations ← buildInterations lattice_type (size * size) bondRng
  some { state := spins, interations := interations, size := size,
         temperature := temperature, magnetic_field := magnetic_field }

/-- `Lattice::index` (src/lattice.rs:281-284):
`(x.rem_euclid(s) + y.rem_euclid(s) * s) as usize` with `s = size as isize`;
`rem_euclid` is the non-negative euclidean remainder, `Int.emod` in Lean. -/
def Lattice.index (L : Lattice) (x y : ℤ) : ℕ :=
  (x % (L.size : ℤ) + y % (L.size : ℤ) * (L.size : ℤ)).toNat

/-- `Lattice::get` (src/lattice.rs:286-288): `self.state[self.index(x, y)]`.
The default is never consulted on a well-formed lattice (the index is in
bounds, see `index` bounds below). -/
def Lattice.get (L : Lattice) (x y : ℤ) : Spin :=
  L.state.getD (L.index x y) Spin.Up

/-- `Lattice::get_interactions` (src/lattice.rs:290-301): effective couplings
assembled from the site's own stored `up`/`left`, the `left` of the right
neighbour `(x+1, y)` and the `up` of the bottom neighbour `(x, y+1)`. -/
def Lattice.get_interactions (L : Lattice) (x y : ℤ) : Interactions :=
  let current := L.interations.getD (L.index x y) default
  let right := L.interations.getD (L.index (x + 1) y) default
  let bottom := L.interations.getD (L.index x (y + 1)) default
  { up := current.up, left := current.left, down := bottom.up, right := right.left }

/-- `Lattice::flip` (src/lattice.rs:303-306): `state[i] = -state[i]` at
`i = index(x, y)`. -/
def Lattice.flip (L : Lattice) (x y : ℤ) : Lattice :=
  let i := L.index x y
  { L with state := L.state.set i (L.state.getD i Spin.Up).negate }

/-- `Lattice::hamiltonian` (src/lattice.rs:168-185): the four coupling terms
accumulated in source order (left, up, right, down), then the magnetic-field
term subtracted. -/
def Lattice.hamiltonian (L : Lattice) (x y : ℤ) : ℚ :=
  let spin := L.get x y
  let interactions := L.get_interactions x y
  0 + (-interactions.left * ((spin.mul (L.get (x - 1) y) : ℤ) : ℚ))
    + (-interactions.up * ((spin.mul (L.get x (y - 1)) : ℤ) : ℚ))
    + (-interactions.right * ((spin.mul (L.get (x + 1) y) : ℤ) : ℚ))
    + (-interactions.down * ((spin.mul (L.get x (y + 1)) : ℤ) : ℚ))
    - ((spin.toInt : ℤ) : ℚ) * L.magnetic_field

/-- `Lattice::internal_energy` (src/lattice.rs:135-147): sum of the
Hamiltonian over all sites, `y` outer and `x` inner. -/
def Lattice.internal_energy (L : Lattice) : ℚ :=
  ∑ y ∈ Finset.range L.size, ∑ x ∈ Finset.range L.size,
    L.hamiltonian (x : ℤ) (y : ℤ)

/-- `Lattice::heat_capacity` (src/lattice.rs:149-162): sum of squared
Hamiltonians, minus `internal_energy()`, divided by `state.len()`. -/
def Lattice.heat_capacity (L : Lattice) : ℚ :=
  ((∑ y ∈ Finset.range L.size, ∑ x ∈ Finset.range L.size,
      L.hamiltonian (x : ℤ) (y : ℤ) * L.hamiltonian (x : ℤ) (y : ℤ))
    - L.internal_energy) / (L.state.length : ℚ)

/-- `Lattice::magnetisation` (src/lattice.rs:164-166): mean of integer spin
values over the state vector. -/
def Lattice.magnetisation (L : Lattice) : ℚ :=
  (((L.state.map fun s => s.toInt).sum : ℤ) : ℚ) / (L.state.length : ℚ)

/-- The `d_energy` value computed by `Lattice::step` (src/lattice.rs:192-206):
minus the Hamiltonian of the chosen site and its four neighbours in the
pre-flip state (the flip at src/lattice.rs:199 happens after these five
reads), plus the same five Hamiltonians in the post-flip state. -/
def Lattice.stepDEnergy (L : Lattice) (x y : ℤ) : ℚ :=
  -L.hamiltonian x y - L.hamiltonian (x - 1) y - L.hamiltonian x (y - 1)
    - L.hamiltonian (x + 1) y - L.hamiltonian x (y + 1)
    + (L.flip x y).hamiltonian x y + (L.flip x y).hamiltonian (x - 1) y
    + (L.flip x y).hamiltonian x (y - 1) + (L.flip x y).hamiltonian (x + 1) y
    + (L.flip x y).hamiltonian x (y + 1)

section StepDef

open Classical

/-- `Lattice::step` (src/lattice.rs:187-213) for an explicitly given chosen
site `(x, y)` (drawn uniformly from `[0, size)²` in the source) and uniform
acceptance draw `u` (drawn from `[0, 1)` in the source): the source flips
the spin at `(x, y)` after accumulating `-H` over the five-site
neighbourhood, adds back the five post-flip `H` values into `d_energy`, and
undoes the flip exactly when `d_energy > 0` and the draw exceeds the
Boltzmann factor, so the final state is the double flip in that case and
the single flip otherwise. -/
noncomputable def Lattice.step (L : Lattice) (x y : ℤ) (u : ℝ) : Lattice :=
  if 0 < L.stepDEnergy x y ∧
      boltzman ((L.stepDEnergy x y : ℚ) : ℝ) ((L.temperature : ℚ) : ℝ) < u then
    (L.flip x y).flip x y
  else
    L.flip x y

end StepDef

/-- The RGB bytes of one site (src/lattice.rs:261-274): blue `(0,0,255)` for
`Up`, red `(255,0,0)` for `Down`. -/
def spinBytes : Spin → List ℕ
  | .Up => [0, 0, 255]
  | .Down => [255, 0, 0]

/-- `Lattice::as_image_raw` (src/lattice.rs:256-279): for each `y` then each
`x` in `0..size`, push the three colour bytes of the spin at `(x, y)`;
return the buffer together with the side length. -/
def Lattice.as_image_raw (L : Lattice) : List ℕ × ℕ :=
  ((List.range L.size).flatMap fun y =>
    (List.range L.size).flatMap fun x =>
      spinBytes (L.get (x : ℤ) (y : ℤ)), L.size)

/-- A concrete 1×1 ferromagnetic lattice (all up, `T = 1`, `B = 0`), used to
instantiate the general theorems below. -/
def sampleUnit : Lattice :=
  { state := [Spin.Up], interations := [InterationsStorage.FERROMAGNETIC],
    size := 1, temperature := 1, magnetic_field := 0 }

/-- A concrete 1×1 ferromagnetic lattice with negative temperature `T = -1`
and field `B = 5`; flipping its single (up) spin raises the energy
(`d_energy = 50`). -/
def sampleNegTemp : Lattice :=
  { state := [Spin.Up], interations := [InterationsStorage.FERROMAGNETIC],
    size := 1, temperature := -1, magnetic_field := 5 }

/-- The 2×2 lattice with spins `[Up, Down, Down, Up]` from the spec's raw
export round-trip scenario. -/
def sampleQuad : Lattice :=
  { state := [Spin.Up, Spin.Down, Spin.Down, Spin.Up],
    interations := List.replicate 4 InterationsStorage.FERROMAGNETIC,
    size := 2, temperature := 1, magnetic_field := 0 }

/-! ## Shared helper lemmas -/

/-- Setting a list entry to the value already stored there is a no-op. -/
theorem list_set_getD_self {α : Type} (l : List α) (i : ℕ) (d : α)
    (h : i < l.length) : l.set i (l.getD i d) = l := by
  induction l generalizing i with
  | nil => simp at h
  | cons a t ih =>
    cases i with
    | zero => simp [List.getD]
    | succ j =>
      simp only [List.getD_cons_succ, List.set_cons_succ, List.cons.injEq, true_and]
      exact ih j (by simpa using h)

/-- With a probability in `[0, 1]`, the spin-glass loop produces `n` bonds
and never panics. -/
theorem buildSpinGlass_valid (p : ℚ) (bondRng : ℕ → Bool)
    (hp : 0 ≤ p ∧ p ≤ 1) (n : ℕ) :
    ∃ l, buildSpinGlass p bondRng n = some l ∧ l.length = n := by
  have hp' : 0 ≤ 1 - p ∧ 1 - p ≤ 1 := ⟨by linarith [hp.2], by linarith [hp.1]⟩
  induction n with
  | zero => exact ⟨[], rfl, rfl⟩
  | succ m ih =>
    obtain ⟨l, hl, hlen⟩ := ih
    refine ⟨l ++ [{ up := ((((bondRng (2 * m)).toNat : ℤ) * 2 - 1 : ℤ) : ℚ),
                    left := ((((bondRng (2 * m + 1)).toNat : ℤ) * 2 - 1 : ℤ) : ℚ) }],
      ?_, by simp [hlen]⟩
    simp [buildSpinGlass, hl, InterationsStorage.spin_glass, genBool, hp']

/-- With a probability outside `[0, 1]`, the spin-glass loop panics as soon
as it generates at least one bond. -/
theorem buildSpinGlass_invalid (p : ℚ) (bondRng : ℕ → Bool)
    (hp : ¬(0 ≤ p ∧ p ≤ 1)) (n : ℕ) (hn : 1 ≤ n) :
    buildSpinGlass p bondRng n = none := by
  have hp' : ¬(p ≤ 1 ∧ 0 ≤ p) := by
    rcases not_and_or.mp hp with h | h
    · exact fun hc => h hc.2
    · exact fun hc => h hc.1
  induction n with
  | zero => omega
  | succ m ih =>
    cases Nat.eq_zero_or_pos m with
    | inl h0 =>
      subst h0
      simp [buildSpinGlass, InterationsStorage.spin_glass, genBool, hp']
    | inr hpos => simp [buildSpinGlass, ih hpos]

/-- Double negation of a spin is the identity. -/
theorem spin_negate_negate (s : Spin) : s.negate.negate = s := by
  cases s <;> rfl

/-- Negating a spin always changes it. -/
theorem spin_negate_ne (s : Spin) : s.negate ≠ s := by
  cases s <;> simp [Spin.negate]

/-- `getD` after `set` at the written (in-bounds) position returns the
written value. -/
theorem list_getD_set_eq {α : Type} (l : List α) (i : ℕ) (a d : α)
    (h : i < l.length) : (l.set i a).getD i d = a := by
  simp [List.getD, List.getElem?_set, h]

/-- `getD` after `set` at a different position is unchanged. -/
theorem list_getD_set_ne {α : Type} (l : List α) {i j : ℕ} (a d : α)
    (h : j ≠ i) : (l.set i a).getD j d = l.getD j d := by
  simp [List.getD, List.getElem?_set, (Ne.symm h : ¬i = j)]

/-- The flattened index is below `size²` whenever `size ≥ 1`. -/
theorem index_lt_sq (L : Lattice) (h : 1 ≤ L.size) (x y : ℤ) :
    L.index x y < L.size ^ 2 := by
  have hs : (0 : ℤ) < (L.size : ℤ) := by exact_mod_cast h
  have hxm := Int.emod_nonneg x (ne_of_gt hs)
  have hym := Int.emod_nonneg y (ne_of_gt hs)
  have hxl := Int.emod_lt_of_pos x hs
  have hyl := Int.emod_lt_of_pos y hs
  unfold Lattice.index
  have hb : x % (L.size : ℤ) + y % (L.size : ℤ) * (L.size : ℤ) < (L.size : ℤ) ^ 2 := by
    nlinarith
  have hb' : x % (L.size : ℤ) + y % (L.size : ℤ) * (L.size : ℤ) < ((L.size ^ 2 : ℕ) : ℤ) := by
    rw [show ((L.size ^ 2 : ℕ) : ℤ) = (L.size : ℤ) ^ 2 by push_cast; ring]
    exact hb
  exact (Int.toNat_lt' (by positivity)).mpr hb'

/-- Concatenating constant-length blocks multiplies the length. -/
theorem flatMap_length_const {α β : Type} (f : α → List β) (c : ℕ)
    (hf : ∀ a, (f a).length = c) (l : List α) :
    (l.flatMap f).length = c * l.length := by
  induction l with
  | nil => simp
  | cons a t ih =>
    simp only [List.flatMap_cons, List.length_append, hf, ih, List.length_cons]
    ring

/-- Dropping `i` constant-length blocks from a flattened range leaves the
flattened tail range. -/
theorem flatMap_range_drop {β : Type} (g : ℕ → List β) (c : ℕ)
    (hg : ∀ k, (g k).length = c) (n : ℕ) :
    ∀ i, i ≤ n → ((List.range n).flatMap g).drop (c * i)
      = (List.range' i (n - i)).flatMap g := by
  intro i
  induction i with
  | zero =>
    intro _
    simp [List.range_eq_range']
  | succ j ih =>
    intro hj
    have hj' : j ≤ n := by omega
    have hcj : c * (j + 1) = c * j + c := by ring
    rw [hcj, ← List.drop_drop, ih hj']
    have hnj : n - j = (n - (j + 1)) + 1 := by omega
    rw [hnj, List.range'_succ, List.flatMap_cons, ← hg j, List.drop_left]

/-- The `i`-th constant-length block of a flattened range. -/
theorem flatMap_range_extract {β : Type} (g : ℕ → List β) (c n i : ℕ)
    (hg : ∀ k, (g k).length = c) (hi : i < n) :
    (((List.range n).flatMap g).drop (c * i)).take c = g i := by
  rw [flatMap_range_drop g c hg n i (le_of_lt hi)]
  have hni : n - i = (n - i - 1) + 1 := by omega
  rw [hni, List.range'_succ, List.flatMap_cons, ← hg i, List.take_left]

/-- A window that stays inside the left part of an append ignores the right
part. -/
theorem take_drop_append_left {β : Type} (A B : List β) (m c : ℕ)
    (h : m + c ≤ A.length) :
    ((A ++ B).drop m).take c = (A.drop m).take c := by
  rw [List.drop_append_eq_append_drop, Nat.sub_eq_zero_of_le (by omega),
    List.drop_zero,
    List.take_append_of_le_length (by simp [List.length_drop]; omega)]

/-! ## Claim theorems -/

/-- C6: for every lattice with `size ≥ 1` and all integer coordinates,
`index(x, y)` equals `(x mod size) + (y mod size)·size` with the
mathematical non-negative modulus, and consequently
`index(x, y) = index(x + size, y) = index(x, y + size) = index(x - size, y)`. -/
theorem index_toroidal_mod (L : Lattice) (h : 1 ≤ L.size) (x y : ℤ) :
    ((L.index x y : ℤ) = x % (L.size : ℤ) + y % (L.size : ℤ) * (L.size : ℤ))
    ∧ L.index x y = L.index (x + (L.size : ℤ)) y
    ∧ L.index x y = L.index x (y + (L.size : ℤ))
    ∧ L.index x y = L.index (x - (L.size : ℤ)) y := by
  have hs : (0 : ℤ) < (L.size : ℤ) := by exact_mod_cast h
  have hxm := Int.emod_nonneg x (ne_of_gt hs)
  have hym := Int.emod_nonneg y (ne_of_gt hs)
  have hsub : (x - (L.size : ℤ)) % (L.size : ℤ) = x % (L.size : ℤ) := by
    have hx : x - (L.size : ℤ) = x + (L.size : ℤ) * (-1) := by ring
    rw [hx, Int.add_mul_emod_self_left]
  unfold Lattice.index
  refine ⟨Int.toNat_of_nonneg (by positivity), ?_, ?_, ?_⟩
  · have hx : x + (L.size : ℤ) = x + (L.size : ℤ) * 1 := by ring
    rw [hx, Int.add_mul_emod_self_left]
  · have hy : y + (L.size : ℤ) = y + (L.size : ℤ) * 1 := by ring
    rw [hy, Int.add_mul_emod_self_left]
  · rw [hsub]

/-- Witness for C6: on the 1×1 sample lattice, `index` is `0` everywhere and
all four identities hold at `(x, y) = (-3, 7)`. -/
theorem index_toroidal_mod_witness :
    ((sampleUnit.index (-3) 7 : ℤ)
        = (-3) % (sampleUnit.size : ℤ) + 7 % (sampleUnit.size : ℤ) * (sampleUnit.size : ℤ))
    ∧ sampleUnit.index (-3) 7 = sampleUnit.index ((-3) + (sampleUnit.size : ℤ)) 7
    ∧ sampleUnit.index (-3) 7 = sampleUnit.index (-3) (7 + (sampleUnit.size : ℤ))
    ∧ sampleUnit.index (-3) 7 = sampleUnit.index ((-3) - (sampleUnit.size : ℤ)) 7 :=
  index_toroidal_mod sampleUnit (by decide) (-3) 7

/-- C10: for every lattice with `size ≥ 1` and all integer coordinates,
the flattened index is strictly below `size²`; hence on a well-formed
lattice (grids of length `size²`) every access performed through `index` by
`get`, `get_interactions` and `flip` — and so by `hamiltonian`, `step`, the
observables and the snapshots — is in bounds. -/
theorem index_in_bounds (L : Lattice) (h : 1 ≤ L.size) (x y : ℤ) :
    (L.index x y < L.size ^ 2)
    ∧ (L.state.length = L.size ^ 2 → L.index x y < L.state.length)
    ∧ (L.interations.length = L.size ^ 2 → L.index x y < L.interations.length) := by
  have key := index_lt_sq L h x y
  exact ⟨key, fun h2 => h2 ▸ key, fun h3 => h3 ▸ key⟩

/-- Witness for C10: on the 1×1 sample lattice the index of the faraway site
`(-5, 9)` is below `size² = 1` and within both grids. -/
theorem index_in_bounds_witness :
    (sampleUnit.index (-5) 9 < sampleUnit.size ^ 2)
    ∧ (sampleUnit.state.length = sampleUnit.size ^ 2
        → sampleUnit.index (-5) 9 < sampleUnit.state.length)
    ∧ (sampleUnit.interations.length = sampleUnit.size ^ 2
        → sampleUnit.index (-5) 9 < sampleUnit.interations.length) :=
  index_in_bounds sampleUnit (by decide) (-5) 9

/-- C5: the effective interaction set used by the Hamiltonian reads `up` and
`left` from the site's own storage, `down` from the stored `up` of the site
at `(x, y+1)`, and `right` from the stored `left` of the site at `(x+1, y)`:
each bond value comes from the single endpoint that stores it. -/
theorem get_interactions_shared_storage (L : Lattice) (h : 1 ≤ L.size) (x y : ℤ) :
    ((L.get_interactions x y).up = (L.interations.getD (L.index x y) default).up)
    ∧ ((L.get_interactions x y).left = (L.interations.getD (L.index x y) default).left)
    ∧ ((L.get_interactions x y).down = (L.interations.getD (L.index x (y + 1)) default).up)
    ∧ ((L.get_interactions x y).right = (L.interations.getD (L.index (x + 1) y) default).left) :=
  ⟨rfl, rfl, rfl, rfl⟩

/-- Witness for C5: the shared-storage reads, instantiated on the 1×1 sample
lattice at the origin. -/
theorem get_interactions_shared_storage_witness :
    ((sampleUnit.get_interactions 0 0).up
        = (sampleUnit.interations.getD (sampleUnit.index 0 0) default).up)
    ∧ ((sampleUnit.get_interactions 0 0).left
        = (sampleUnit.interations.getD (sampleUnit.index 0 0) default).left)
    ∧ ((sampleUnit.get_interactions 0 0).down
        = (sampleUnit.interations.getD (sampleUnit.index 0 1) default).up)
    ∧ ((sampleUnit.get_interactions 0 0).right
        = (sampleUnit.interations.getD (sampleUnit.index 1 0) default).left) :=
  get_interactions_shared_storage sampleUnit (by decide) 0 0

/-- C2: `hamiltonian(x, y)` returns
`-left·(s·s_left) - up·(s·s_up) - right·(s·s_right) - down·(s·s_down) - s·B`
with the effective interactions and toroidally looked-up neighbour spins,
where the spin product is `+1` for equal spins and `-1` otherwise. -/
theorem hamiltonian_formula (L : Lattice) (h : 1 ≤ L.size) (x y : ℤ) :
    (L.hamiltonian x y =
      -(L.get_interactions x y).left * (((L.get x y).mul (L.get (x - 1) y) : ℤ) : ℚ)
      - (L.get_interactions x y).up * (((L.get x y).mul (L.get x (y - 1)) : ℤ) : ℚ)
      - (L.get_interactions x y).right * (((L.get x y).mul (L.get (x + 1) y) : ℤ) : ℚ)
      - (L.get_interactions x y).down * (((L.get x y).mul (L.get x (y + 1)) : ℤ) : ℚ)
      - (((L.get x y).toInt : ℤ) : ℚ) * L.magnetic_field)
    ∧ (∀ a b : Spin, a.mul b = if a = b then 1 else -1) := by
  constructor
  · unfold Lattice.hamiltonian
    ring
  · intro a b
    cases a <;> cases b <;> rfl

/-- Witness for C2: the Hamiltonian formula instantiated on the 1×1 sample
lattice at the origin, where both sides evaluate to `-4`. -/
theorem hamiltonian_formula_witness :
    (sampleUnit.hamiltonian 0 0 =
      -(sampleUnit.get_interactions 0 0).left
          * (((sampleUnit.get 0 0).mul (sampleUnit.get (0 - 1) 0) : ℤ) : ℚ)
      - (sampleUnit.get_interactions 0 0).up
          * (((sampleUnit.get 0 0).mul (sampleUnit.get 0 (0 - 1)) : ℤ) : ℚ)
      - (sampleUnit.get_interactions 0 0).right
          * (((sampleUnit.get 0 0).mul (sampleUnit.get (0 + 1) 0) : ℤ) : ℚ)
      - (sampleUnit.get_interactions 0 0).down
          * (((sampleUnit.get 0 0).mul (sampleUnit.get 0 (0 + 1)) : ℤ) : ℚ)
      - (((sampleUnit.get 0 0).toInt : ℤ) : ℚ) * sampleUnit.magnetic_field)
    ∧ (sampleUnit.hamiltonian 0 0 = -4) :=
  ⟨(hamiltonian_formula sampleUnit (by decide) 0 0).1, by
    norm_num [Lattice.hamiltonian, Lattice.get, Lattice.get_interactions,
      Lattice.index, sampleUnit, Spin.mul, Spin.toInt,
      InterationsStorage.FERROMAGNETIC, List.getD]⟩

/-- C7: `heat_capacity()` is exactly the sum of squared per-site
Hamiltonians minus `internal_energy()`, divided by the site count `size²`,
and `internal_energy()` is the sum of the per-site Hamiltonians; both are
pure queries (functions of the lattice value, mutating nothing). -/
theorem observables_formulas (L : Lattice) (h1 : 1 ≤ L.size)
    (h2 : L.state.length = L.size ^ 2) :
    (L.heat_capacity =
      ((∑ y ∈ Finset.range L.size, ∑ x ∈ Finset.range L.size,
          L.hamiltonian (x : ℤ) (y : ℤ) * L.hamiltonian (x : ℤ) (y : ℤ))
        - L.internal_energy) / ((L.size ^ 2 : ℕ) : ℚ))
    ∧ (L.internal_energy =
      ∑ y ∈ Finset.range L.size, ∑ x ∈ Finset.range L.size,
        L.hamiltonian (x : ℤ) (y : ℤ)) := by
  constructor
  · unfold Lattice.heat_capacity
    rw [h2]
  · rfl

/-- Witness for C7: the observable formulas on the 1×1 sample lattice, where
`internal_energy = -4` and `heat_capacity = (16 - (-4)) / 1 = 20`. -/
theorem observables_formulas_witness :
    (sampleUnit.heat_capacity =
      ((∑ y ∈ Finset.range sampleUnit.size, ∑ x ∈ Finset.range sampleUnit.size,
          sampleUnit.hamiltonian (x : ℤ) (y : ℤ) * sampleUnit.hamiltonian (x : ℤ) (y : ℤ))
        - sampleUnit.internal_energy) / ((sampleUnit.size ^ 2 : ℕ) : ℚ))
    ∧ (sampleUnit.heat_capacity = 20) :=
  ⟨(observables_formulas sampleUnit (by decide) (by decide)).1, by
    norm_num [Lattice.heat_capacity, Lattice.internal_energy,
      Lattice.hamiltonian, Lattice.get, Lattice.get_interactions,
      Lattice.index, sampleUnit, Spin.mul, Spin.toInt,
      InterationsStorage.FERROMAGNETIC, List.getD]⟩

/-- C1: for every lattice, chosen site `(x, y)` and uniform draw
`u ∈ [0, 1)`, `step` computes `d_energy` as minus the five-term Hamiltonian
sum before the flip plus the same five-term sum after the flip; when
`d_energy ≤ 0` the flip is kept for every draw (no acceptance draw is
consulted), and when `d_energy > 0` the flip is reverted exactly when the
draw exceeds `exp(-d_energy / temperature)`. -/
theorem step_metropolis_rule (L : Lattice) (x y : ℤ) (u : ℝ)
    (hu : 0 ≤ u ∧ u < 1) (dE : ℚ)
    (hdE : dE = -(L.hamiltonian x y + L.hamiltonian (x - 1) y + L.hamiltonian x (y - 1)
          + L.hamiltonian (x + 1) y + L.hamiltonian x (y + 1))
        + ((L.flip x y).hamiltonian x y + (L.flip x y).hamiltonian (x - 1) y
          + (L.flip x y).hamiltonian x (y - 1) + (L.flip x y).hamiltonian (x + 1) y
          + (L.flip x y).hamiltonian x (y + 1))) :
    (dE ≤ 0 → L.step x y u = L.flip x y)
    ∧ (0 < dE →
        (boltzman ((dE : ℚ) : ℝ) ((L.temperature : ℚ) : ℝ) < u
          → L.step x y u = (L.flip x y).flip x y)
        ∧ (u ≤ boltzman ((dE : ℚ) : ℝ) ((L.temperature : ℚ) : ℝ)
          → L.step x y u = L.flip x y)) := by
  have hde : L.stepDEnergy x y = dE := by
    rw [hdE]
    unfold Lattice.stepDEnergy
    ring
  unfold Lattice.step
  rw [hde]
  refine ⟨fun hle => ?_, fun hpos => ⟨fun hgt => ?_, fun hge => ?_⟩⟩
  · rw [if_neg]
    rintro ⟨hgt0, -⟩
    exact absurd hle (not_le.mpr hgt0)
  · rw [if_pos ⟨hpos, hgt⟩]
  · rw [if_neg]
    rintro ⟨-, hlt⟩
    exact absurd hlt (not_lt.mpr hge)

/-- Witness for C1: on the 1×1 sample lattice the five-term energy change of
the single flip is `0 ≤ 0`, so the flip is kept for the draw `1/2`. -/
theorem step_metropolis_rule_witness :
    sampleUnit.step 0 0 (1 / 2) = sampleUnit.flip 0 0 :=
  (step_metropolis_rule sampleUnit 0 0 (1 / 2) (by norm_num) 0 (by
    norm_num [Lattice.hamiltonian, Lattice.flip, Lattice.get,
      Lattice.get_interactions, Lattice.index, sampleUnit, Spin.mul,
      Spin.toInt, Spin.negate, InterationsStorage.FERROMAGNETIC,
      List.getD])).1 (by norm_num)

/-- C3 counterexample: on the 1×1 lattice with `temperature = -1 ≤ 0` and
`field = 5`, flipping the single up spin has `d_energy = 50 > 0`, yet
`step` with draw `1/2` keeps the flip (the draw never exceeds
`exp(-50 / -1) = exp 50 > 1`), so the spin grid changes: the move is not
automatically rejected. -/
theorem step_degenerate_temperature_cex :
    sampleNegTemp.temperature ≤ 0
    ∧ 0 < sampleNegTemp.stepDEnergy 0 0
    ∧ (sampleNegTemp.step 0 0 (1 / 2)).state ≠ sampleNegTemp.state := by
  have hsd : sampleNegTemp.stepDEnergy 0 0 = 50 := by
    norm_num [Lattice.stepDEnergy, Lattice.hamiltonian, Lattice.flip,
      Lattice.get, Lattice.get_interactions, Lattice.index, sampleNegTemp,
      Spin.mul, Spin.toInt, Spin.negate, InterationsStorage.FERROMAGNETIC,
      List.getD]
  refine ⟨by norm_num [sampleNegTemp], by rw [hsd]; norm_num, ?_⟩
  have hcond : ¬(0 < sampleNegTemp.stepDEnergy 0 0
      ∧ boltzman ((sampleNegTemp.stepDEnergy 0 0 : ℚ) : ℝ)
          ((sampleNegTemp.temperature : ℚ) : ℝ) < (1 / 2 : ℝ)) := by
    rintro ⟨-, hb⟩
    rw [hsd] at hb
    have hT : ((sampleNegTemp.temperature : ℚ) : ℝ) = -1 := by
      norm_num [sampleNegTemp]
    rw [hT] at hb
    unfold boltzman at hb
    have hexp : (1 : ℝ) ≤ Real.exp (-(((50 : ℚ) : ℝ)) / (-1)) := by
      rw [← Real.exp_zero]
      apply Real.exp_le_exp.mpr
      push_cast
      norm_num
    linarith
  unfold Lattice.step
  rw [if_neg hcond]
  simp only [Lattice.flip, sampleNegTemp]
  decide

/-- C3 (amended): with `temperature < 0` and a strictly positive
`d_energy`, the Boltzmann factor `exp(-d_energy / temperature)` is at least
`1`, so a uniform draw in `[0, 1)` can never exceed it: the energy-raising
flip is always kept (accepted), not rejected; no error is raised (`step` is
a total function). -/
theorem step_negative_temperature_accepts (L : Lattice) (x y : ℤ) (u : ℝ)
    (hT : L.temperature < 0) (hu : 0 ≤ u ∧ u < 1)
    (hd : 0 < L.stepDEnergy x y) :
    L.step x y u = L.flip x y := by
  unfold Lattice.step
  rw [if_neg]
  rintro ⟨-, hb⟩
  have hTR : ((L.temperature : ℚ) : ℝ) < 0 := by exact_mod_cast hT
  have hdR : (0 : ℝ) < ((L.stepDEnergy x y : ℚ) : ℝ) := by exact_mod_cast hd
  have hpos : (0 : ℝ) ≤ -((L.stepDEnergy x y : ℚ) : ℝ) / ((L.temperature : ℚ) : ℝ) :=
    le_of_lt (div_pos_of_neg_of_neg (by linarith) hTR)
  have hone : (1 : ℝ) ≤ boltzman ((L.stepDEnergy x y : ℚ) : ℝ)
      ((L.temperature : ℚ) : ℝ) := by
    unfold boltzman
    rw [← Real.exp_zero]
    exact Real.exp_le_exp.mpr hpos
  linarith [hu.2]

/-- Witness for C3 (amended): the always-accept conclusion instantiated on
the negative-temperature sample lattice with draw `1/2`. -/
theorem step_negative_temperature_accepts_witness :
    sampleNegTemp.step 0 0 (1 / 2) = sampleNegTemp.flip 0 0 :=
  step_negative_temperature_accepts sampleNegTemp 0 0 (1 / 2)
    (by norm_num [sampleNegTemp]) (by norm_num)
    (by
      norm_num [Lattice.stepDEnergy, Lattice.hamiltonian, Lattice.flip,
        Lattice.get, Lattice.get_interactions, Lattice.index, sampleNegTemp,
        Spin.mul, Spin.toInt, Spin.negate,
        InterationsStorage.FERROMAGNETIC, List.getD])

/-- C8: on a well-formed lattice, `step` leaves `size`, `temperature`,
`magnetic_field` and the interaction grid unchanged and preserves the state
length; when the move is rejected (`d_energy > 0` and the draw exceeds the
Boltzmann factor) the spin grid is exactly the pre-step grid, and when it
is accepted the grid differs from the pre-step grid at exactly the chosen
site, which is negated. -/
theorem step_frame (L : Lattice) (x y : ℤ) (u : ℝ)
    (h1 : 1 ≤ L.size) (h2 : L.state.length = L.size ^ 2) :
    ((L.step x y u).size = L.size
      ∧ (L.step x y u).temperature = L.temperature
      ∧ (L.step x y u).magnetic_field = L.magnetic_field
      ∧ (L.step x y u).interations = L.interations
      ∧ (L.step x y u).state.length = L.state.length)
    ∧ ((0 < L.stepDEnergy x y
          ∧ boltzman ((L.stepDEnergy x y : ℚ) : ℝ) ((L.temperature : ℚ) : ℝ) < u)
        → (L.step x y u).state = L.state)
    ∧ (¬(0 < L.stepDEnergy x y
          ∧ boltzman ((L.stepDEnergy x y : ℚ) : ℝ) ((L.temperature : ℚ) : ℝ) < u)
        → ((L.step x y u).state.getD (L.index x y) Spin.Up
              = (L.state.getD (L.index x y) Spin.Up).negate
            ∧ (∀ j, j ≠ L.index x y
                → (L.step x y u).state.getD j Spin.Up = L.state.getD j Spin.Up)
            ∧ (L.step x y u).state ≠ L.state)) := by
  have hi : L.index x y < L.state.length := h2 ▸ index_lt_sq L h1 x y
  have hflipidx : ∀ M : Lattice, M.size = L.size → M.index x y = L.index x y := by
    intro M hM
    unfold Lattice.index
    rw [hM]
  have hflip_state : (L.flip x y).state
      = L.state.set (L.index x y) (L.state.getD (L.index x y) Spin.Up).negate := rfl
  have hdouble : ((L.flip x y).flip x y).state = L.state := by
    show ((L.flip x y).state.set ((L.flip x y).index x y)
        ((L.flip x y).state.getD ((L.flip x y).index x y) Spin.Up).negate) = L.state
    rw [hflipidx (L.flip x y) rfl, hflip_state,
      list_getD_set_eq _ _ _ _ hi, List.set_set, spin_negate_negate,
      list_set_getD_self _ _ _ hi]
  by_cases hc : (0 < L.stepDEnergy x y
      ∧ boltzman ((L.stepDEnergy x y : ℚ) : ℝ) ((L.temperature : ℚ) : ℝ) < u)
  · have hstep : L.step x y u = (L.flip x y).flip x y := by
      unfold Lattice.step
      rw [if_pos hc]
    rw [hstep]
    refine ⟨⟨rfl, rfl, rfl, rfl, ?_⟩, fun _ => hdouble, fun hnc => absurd hc hnc⟩
    rw [hdouble]
  · have hstep : L.step x y u = L.flip x y := by
      unfold Lattice.step
      rw [if_neg hc]
    rw [hstep]
    refine ⟨⟨rfl, rfl, rfl, rfl, ?_⟩, fun hcc => absurd hcc hc, fun _ => ⟨?_, ?_, ?_⟩⟩
    · rw [hflip_state, List.length_set]
    · rw [hflip_state, list_getD_set_eq _ _ _ _ hi]
    · intro j hj
      rw [hflip_state, list_getD_set_ne _ _ _ hj]
    · intro heq
      have := congrArg (fun l => l.getD (L.index x y) Spin.Up) heq
      simp only [hflip_state] at this
      rw [list_getD_set_eq _ _ _ _ hi] at this
      exact spin_negate_ne _ this

/-- Witness for C8: on the 1×1 sample lattice with draw `1/2` the move is
accepted (`d_energy = 0`), the frame fields are preserved and the single
site is negated. -/
theorem step_frame_witness :
    ((sampleUnit.step 0 0 (1 / 2)).temperature = sampleUnit.temperature)
    ∧ ((sampleUnit.step 0 0 (1 / 2)).interations = sampleUnit.interations)
    ∧ ((sampleUnit.step 0 0 (1 / 2)).state.getD (sampleUnit.index 0 0) Spin.Up
        = (sampleUnit.state.getD (sampleUnit.index 0 0) Spin.Up).negate)
    ∧ ((sampleUnit.step 0 0 (1 / 2)).state ≠ sampleUnit.state) := by
  have h := step_frame sampleUnit 0 0 (1 / 2) (by decide) (by decide)
  have hcond : ¬(0 < sampleUnit.stepDEnergy 0 0
      ∧ boltzman ((sampleUnit.stepDEnergy 0 0 : ℚ) : ℝ)
          ((sampleUnit.temperature : ℚ) : ℝ) < (1 / 2 : ℝ)) := by
    rintro ⟨hd, -⟩
    have hsd : sampleUnit.stepDEnergy 0 0 = 0 := by
      norm_num [Lattice.stepDEnergy, Lattice.hamiltonian, Lattice.flip,
        Lattice.get, Lattice.get_interactions, Lattice.index, sampleUnit,
        Spin.mul, Spin.toInt, Spin.negate,
        InterationsStorage.FERROMAGNETIC, List.getD]
    rw [hsd] at hd
    exact absurd hd (by norm_num)
  obtain ⟨hframe, -, haccept⟩ := h
  obtain ⟨hchosen, -, hne⟩ := haccept hcond
  exact ⟨hframe.2.1, hframe.2.2.2.1, hchosen, hne⟩

/-- C4 counterexample: neither constructor returns a typed error. With
`size = 0` both succeed, returning a degenerate empty lattice instead of an
`InvalidSize` error; with spin-glass probability `p_antiferro = 2 ∉ [0, 1]`
and `size = 1` both panic inside `gen_bool` (modelled `none`) instead of
returning an `InvalidProbability` error. -/
theorem constructors_no_validation_cex :
    (Lattice.new_random 0 1 0 LatticeType.Ferromagnetic (fun _ => true) (fun _ => true)
      = some { state := [], interations := [], size := 0,
               temperature := 1, magnetic_field := 0 })
    ∧ (Lattice.new_uniform 0 1 0 Spin.Up LatticeType.Ferromagnetic (fun _ => true)
      = some { state := [], interations := [], size := 0,
               temperature := 1, magnetic_field := 0 })
    ∧ (Lattice.new_random 1 1 0 (LatticeType.SpinGlass 2) (fun _ => true) (fun _ => true)
      = none)
    ∧ (Lattice.new_uniform 1 1 0 Spin.Up (LatticeType.SpinGlass 2) (fun _ => true)
      = none) := by
  refine ⟨rfl, rfl, ?_, ?_⟩ <;>
    norm_num [Lattice.new_random, Lattice.new_uniform, buildInterations,
      buildSpinGlass, InterationsStorage.spin_glass, genBool]

/-- With every spin-glass probability constraint satisfied, the interaction
grid builds successfully with one storage per site. -/
theorem buildInterations_valid (lt : LatticeType) (n : ℕ) (bondRng : ℕ → Bool)
    (hval : ∀ q, lt = .SpinGlass q → 0 ≤ q ∧ q ≤ 1) :
    ∃ l, buildInterations lt n bondRng = some l ∧ l.length = n := by
  cases lt with
  | Ferromagnetic =>
    exact ⟨_, rfl, List.length_replicate _ _⟩
  | Antiferromagnetic =>
    exact ⟨_, rfl, List.length_replicate _ _⟩
  | SpinGlass q =>
    exact buildSpinGlass_valid q bondRng (hval q rfl) n

/-- C4 (amended): the constructors perform no validation and return no
typed error. With `size = 0` both return a degenerate empty lattice; with
coupling `SpinGlass p` for `p ∉ [0, 1]` and `size ≥ 1` both panic in
`gen_bool` (no typed error); with `size ≥ 1` and any valid coupling both
return a fully initialized lattice (grids of `size²` entries, the given
parameters stored). -/
theorem constructors_validation_behaviour (T B p : ℚ) (s : Spin)
    (spinRng bondRng : ℕ → Bool) (lt : LatticeType) :
    (Lattice.new_random 0 T B lt spinRng bondRng
        = some { state := [], interations := [], size := 0,
                 temperature := T, magnetic_field := B }
      ∧ Lattice.new_uniform 0 T B s lt bondRng
        = some { state := [], interations := [], size := 0,
                 temperature := T, magnetic_field := B })
    ∧ (∀ n, 1 ≤ n → ¬(0 ≤ p ∧ p ≤ 1)
        → Lattice.new_random n T B (.SpinGlass p) spinRng bondRng = none
          ∧ Lattice.new_uniform n T B s (.SpinGlass p) bondRng = none)
    ∧ (∀ n, 1 ≤ n → (∀ q, lt = .SpinGlass q → 0 ≤ q ∧ q ≤ 1)
        → (∃ L, Lattice.new_random n T B lt spinRng bondRng = some L
            ∧ L.state.length = n * n ∧ L.interations.length = n * n
            ∧ L.size = n ∧ L.temperature = T ∧ L.magnetic_field = B)
          ∧ (∃ L, Lattice.new_uniform n T B s lt bondRng = some L
            ∧ L.state = List.replicate (n * n) s ∧ L.interations.length = n * n
            ∧ L.size = n ∧ L.temperature = T ∧ L.magnetic_field = B)) := by
  refine ⟨?_, ?_, ?_⟩
  · cases lt <;> exact ⟨rfl, rfl⟩
  · intro n hn hp
    have hnone : buildSpinGlass p bondRng (n * n) = none :=
      buildSpinGlass_invalid p bondRng hp (n * n) (Nat.one_le_iff_ne_zero.mpr (by
        intro hz
        rcases Nat.mul_eq_zero.mp hz with h0 | h0 <;> omega))
    constructor <;>
      simp [Lattice.new_random, Lattice.new_uniform, buildInterations, hnone]
  · intro n hn hval
    obtain ⟨l, hl, hlen⟩ := buildInterations_valid lt (n * n) bondRng hval
    constructor
    · refine ⟨{ state :=
                  (List.range (n * n)).map
                    (fun i => if spinRng i then Spin.Up else Spin.Down),
                interations := l, size := n, temperature := T,
                magnetic_field := B },
        ?_, ?_, hlen, rfl, rfl, rfl⟩
      · simp [Lattice.new_random, hl]
      · simp
    · refine ⟨{ state := List.replicate (n * n) s,
                interations := l, size := n, temperature := T,
                magnetic_field := B },
        ?_, rfl, hlen, rfl, rfl, rfl⟩
      simp [Lattice.new_uniform, hl]

/-- Witness for C4 (amended): a 2×2 spin-glass lattice with `p = 1/2` builds
successfully, and a 1×1 spin-glass with `p = 3` panics. -/
theorem constructors_validation_behaviour_witness :
    (∃ L, Lattice.new_random 2 1 0 (LatticeType.SpinGlass (1 / 2))
        (fun _ => true) (fun _ => false) = some L
      ∧ L.state.length = 2 * 2 ∧ L.interations.length = 2 * 2
      ∧ L.size = 2 ∧ L.temperature = 1 ∧ L.magnetic_field = 0)
    ∧ Lattice.new_uniform 1 1 0 Spin.Up (LatticeType.SpinGlass 3)
        (fun _ => true) = none := by
  constructor
  · exact ((constructors_validation_behaviour 1 0 (1 / 2) Spin.Up
      (fun _ => true) (fun _ => false) (LatticeType.SpinGlass (1 / 2))).2.2
      2 (by decide) (fun q hq => by
        cases hq
        norm_num)).1
  · exact ((constructors_validation_behaviour 1 0 3 Spin.Up
      (fun _ => true) (fun _ => true) (LatticeType.SpinGlass 3)).2.1
      1 (by decide) (by
        rintro ⟨-, h3⟩
        norm_num at h3)).2

/-- C9: the raw export returns a flat RGB buffer of `3·size²` bytes in
row-major order (top row `y = 0`), each `Up` site contributing `(0,0,255)`
and each `Down` site `(255,0,0)`, paired with the side length; in
particular any size-2 lattice with spins `[Up, Down, Down, Up]` exports
`([0,0,255, 255,0,0, 255,0,0, 0,0,255], 2)`. -/
theorem as_image_raw_spec (L : Lattice) (h : 1 ≤ L.size) :
    ((L.as_image_raw).1.length = 3 * L.size ^ 2)
    ∧ ((L.as_image_raw).2 = L.size)
    ∧ (∀ x y : ℕ, x < L.size → y < L.size →
        ((L.as_image_raw).1.drop (3 * (y * L.size + x))).take 3
          = spinBytes (L.get (x : ℤ) (y : ℤ)))
    ∧ (∀ s : Spin, spinBytes s = if s = Spin.Up then [0, 0, 255] else [255, 0, 0])
    ∧ (∀ (ints : List InterationsStorage) (T B : ℚ),
        (Lattice.mk [Spin.Up, Spin.Down, Spin.Down, Spin.Up] ints 2 T B).as_image_raw
          = ([0, 0, 255, 255, 0, 0, 255, 0, 0, 0, 0, 255], 2)) := by
  have hbuf : (L.as_image_raw).1
      = (List.range L.size).flatMap fun y =>
          (List.range L.size).flatMap fun x =>
            spinBytes (L.get (x : ℤ) (y : ℤ)) := rfl
  have hcell : ∀ yy k : ℕ,
      ((fun xx : ℕ => spinBytes (L.get (xx : ℤ) (yy : ℤ))) k).length = 3 := by
    intro yy k
    show (spinBytes (L.get (k : ℤ) (yy : ℤ))).length = 3
    cases L.get (k : ℤ) (yy : ℤ) <;> rfl
  have hrowlen : ∀ yy : ℕ, ((List.range L.size).flatMap
      fun xx : ℕ => spinBytes (L.get (xx : ℤ) (yy : ℤ))).length = 3 * L.size := by
    intro yy
    rw [flatMap_length_const _ 3 (hcell yy), List.length_range]
  refine ⟨?_, rfl, ?_, ?_, ?_⟩
  · rw [hbuf, flatMap_length_const _ (3 * L.size) hrowlen, List.length_range]
    ring
  · intro x y hx hy
    rw [hbuf, show 3 * (y * L.size + x) = 3 * L.size * y + 3 * x by ring,
      ← List.drop_drop,
      flatMap_range_drop _ (3 * L.size) hrowlen L.size y (le_of_lt hy),
      show L.size - y = (L.size - y - 1) + 1 by omega,
      List.range'_succ, List.flatMap_cons,
      take_drop_append_left _ _ _ _ (by rw [hrowlen y]; omega)]
    exact flatMap_range_extract _ 3 L.size x (hcell y) hx
  · intro s
    cases s <;> rfl
  · intro ints T B
    rfl

/-- Witness for C9: the size-2 sample lattice `[Up, Down, Down, Up]` has a
12-byte buffer, its pixel at `(x, y) = (0, 1)` is red, and the full export
matches the spec's round-trip example. -/
theorem as_image_raw_spec_witness :
    ((sampleQuad.as_image_raw).1.length = 3 * sampleQuad.size ^ 2)
    ∧ (((sampleQuad.as_image_raw).1.drop (3 * (1 * sampleQuad.size + 0))).take 3
        = spinBytes (sampleQuad.get (0 : ℤ) (1 : ℤ)))
    ∧ sampleQuad.as_image_raw
        = ([0, 0, 255, 255, 0, 0, 255, 0, 0, 0, 0, 255], 2) := by
  have h := as_image_raw_spec sampleQuad (by decide)
  exact ⟨h.1, h.2.2.1 0 1 (by decide) (by decide),
    h.2.2.2.2 sampleQuad.interations 1 0⟩

end IsingModel
